import Mathlib

/-!
Verification of the CryptoBot paper-trading engine.

The development shallowly embeds the ledger-and-execution engine
(`database.py`, `account.py`, `executor.py`) and the signal engine
(`strategies/rsi_ema_strategy.py`). Python `float` arithmetic is modelled
exactly by `ℚ` (the spec's formulas are stated over real numbers; no claim
here depends on binary rounding). The SQLite tables are modelled by their
observable contents: the single account row as an `Option Account`, the
`positions` table as an association list keyed by the UNIQUE `symbol`
column, and the `trades` table as the list of inserted rows. The price
oracle (`database.get_latest_price`) is passed to each operation as a
function `String → Option ℚ`.
-/

deriving instance DecidableEq for Except

namespace CryptoBot

/-- `config.STARTING_BALANCE_USDT = 10_000.0`. -/
def STARTING_BALANCE_USDT : ℚ := 10000

/-- `config.TRADING_FEE_PERCENT = 0.1`. -/
def TRADING_FEE_PERCENT : ℚ := 1/10

/-- `config.RSI_OVERSOLD = 30`. -/
def RSI_OVERSOLD : ℚ := 30

/-- `config.RSI_OVERBOUGHT = 70`. -/
def RSI_OVERBOUGHT : ℚ := 70

/-- `PaperAccount.__init__`: `self.fee_percent = config.TRADING_FEE_PERCENT / 100`. -/
def fee_percent : ℚ := TRADING_FEE_PERCENT / 100

/-- The dust threshold `0.000001` used by `TradeExecutor.market_sell`
(`if new_amount <= 0.000001: # Close position (tiny amounts)`). -/
def epsilon : ℚ := 1/1000000

/-- A row of the `positions` table (the UNIQUE `symbol` key is kept
outside, in the association list). -/
structure Position where
  amount : ℚ
  avg_entry_price : ℚ
deriving DecidableEq

/-- The single row of the `account` table. -/
structure Account where
  cash_balance : ℚ
  total_equity : ℚ
deriving DecidableEq

/-- A row of the `trades` table, as inserted by `database.log_trade`
(the wall-clock timestamp column is not modelled). -/
structure Trade where
  symbol : String
  side : String
  amount : ℚ
  price : ℚ
  fee : ℚ
  pnl : ℚ
deriving DecidableEq

/-- The observable state of the SQLite database that the Ledger operations
read and write: the account row (`none` before initialization), the
positions table and the trades table. -/
structure Ledger where
  account : Option Account
  positions : List (String × Position)
  trades : List Trade
deriving DecidableEq

/-- `database.get_position`: `SELECT * FROM positions WHERE symbol = ?`
(at most one row thanks to the UNIQUE constraint). -/
def db_get_position : List (String × Position) → String → Option Position
  | [], _ => none
  | x :: rest, sym => if x.1 = sym then some x.2 else db_get_position rest sym

/-- `DELETE FROM positions WHERE symbol = ?`. -/
def db_delete_position : List (String × Position) → String → List (String × Position)
  | [], _ => []
  | x :: rest, sym =>
    if x.1 = sym then db_delete_position rest sym
    else x :: db_delete_position rest sym

/-- `database.update_position`: `if amount <= 0:` delete the row, else
`INSERT OR REPLACE` it. -/
def db_update_position (ps : List (String × Position)) (sym : String)
    (amount avg_entry_price : ℚ) : List (String × Position) :=
  if amount ≤ 0 then db_delete_position ps sym
  else (sym, ⟨amount, avg_entry_price⟩) :: db_delete_position ps sym

/-- `database.get_all_positions`: `SELECT * FROM positions WHERE amount > 0`. -/
def db_get_all_positions (ps : List (String × Position)) :
    List (String × Position) :=
  ps.filter (fun x => 0 < x.2.amount)

/-- `PaperAccount.get_cash_balance`:
`return account['cash_balance'] if account else 0.0`. -/
def get_cash_balance (st : Ledger) : ℚ :=
  match st.account with
  | some a => a.cash_balance
  | none => 0

/-- `PaperAccount.calculate_fee`: `amount_usdt * self.fee_percent`
(the fee rate is a parameter, instantiated with `fee_percent` in the
deployed configuration). -/
def calculate_fee (feeRate amount_usdt : ℚ) : ℚ :=
  amount_usdt * feeRate

/-- `PaperAccount.can_afford`: `cash >= amount_usdt + fee`. -/
def can_afford (feeRate : ℚ) (st : Ledger) (amount_usdt : ℚ) : Bool :=
  decide (amount_usdt + calculate_fee feeRate amount_usdt ≤ get_cash_balance st)

/-- `PaperAccount.calculate_total_equity` with an explicit cash argument
(both internal call sites pass one): cash plus, for every row of
`get_all_positions`, `amount` times the latest price, falling back to the
entry price when the oracle has no price or a falsy (zero) one
(`if current_price:`). -/
def calculate_total_equity (prices : String → Option ℚ)
    (ps : List (String × Position)) (cash_balance : ℚ) : ℚ :=
  cash_balance +
    (db_get_all_positions ps).foldl
      (fun acc x =>
        acc + (match prices x.1 with
          | some p => if p = 0 then x.2.amount * x.2.avg_entry_price
                      else x.2.amount * p
          | none => x.2.amount * x.2.avg_entry_price))
      0

/-- `database.update_account`: `INSERT OR REPLACE` the single account row. -/
def db_update_account (st : Ledger) (cash_balance total_equity : ℚ) : Ledger :=
  { st with account := some ⟨cash_balance, total_equity⟩ }

/-- `PaperAccount.update_position`: write the position row, then recompute
and persist `total_equity` from the resulting state. -/
def acc_update_position (prices : String → Option ℚ) (st : Ledger)
    (sym : String) (amount avg_entry_price : ℚ) : Ledger :=
  let ps := db_update_position st.positions sym amount avg_entry_price
  let st1 := { st with positions := ps }
  let cash := get_cash_balance st1
  db_update_account st1 cash (calculate_total_equity prices ps cash)

/-- `PaperAccount.update_cash_balance`: recompute equity at the new
balance and persist both. -/
def update_cash_balance (prices : String → Option ℚ) (st : Ledger)
    (new_balance : ℚ) : Ledger :=
  db_update_account st new_balance
    (calculate_total_equity prices st.positions new_balance)

/-- `database.initialize_account`: create the account row with
`cash_balance = total_equity = starting_balance` only if absent. -/
def initialize_account (st : Ledger) (starting_balance : ℚ) : Ledger :=
  match st.account with
  | some _ => st
  | none => db_update_account st starting_balance starting_balance

/-- The business-rule rejections returned by the executor as structured
failure results. -/
inductive TradeError
  | nonPositiveAmount
  | noPriceData
  | insufficientBalance
  | noPosition
  | insufficientPosition
deriving DecidableEq

/-- The payload of a successful `market_buy` result dict. -/
structure BuyFill where
  amount : ℚ
  price : ℚ
  cost : ℚ
  fee : ℚ
  total_cost : ℚ
deriving DecidableEq

/-- The payload of a successful `market_sell` result dict. -/
structure SellFill where
  amount : ℚ
  price : ℚ
  gross_proceeds : ℚ
  fee : ℚ
  net_proceeds : ℚ
  pnl : ℚ
deriving DecidableEq

/-- `TradeExecutor.market_buy`, step for step: reject non-positive
amounts, missing price data and unaffordable trades before any write;
otherwise average the position (or open a new one at the mark price),
deduct `amount + fee` from cash and append the trade log row. -/
def market_buy (feeRate : ℚ) (prices : String → Option ℚ) (st : Ledger)
    (sym : String) (amount_usdt : ℚ) : Except TradeError BuyFill × Ledger :=
  if amount_usdt ≤ 0 then (.error .nonPositiveAmount, st)
  else match prices sym with
  | none => (.error .noPriceData, st)
  | some price =>
    let fee := calculate_fee feeRate amount_usdt
    let total_cost := amount_usdt + fee
    if ¬ can_afford feeRate st amount_usdt then (.error .insufficientBalance, st)
    else
      let crypto_amount := amount_usdt / price
      let st1 :=
        match db_get_position st.positions sym with
        | some pos =>
          let new_amount := pos.amount + crypto_amount
          let new_avg_price := (pos.amount * pos.avg_entry_price + amount_usdt) / new_amount
          acc_update_position prices st sym new_amount new_avg_price
        | none => acc_update_position prices st sym crypto_amount price
      let st2 := update_cash_balance prices st1 (get_cash_balance st1 - total_cost)
      let st3 := { st2 with trades := st2.trades ++ [⟨sym, "buy", crypto_amount, price, fee, 0⟩] }
      (.ok ⟨crypto_amount, price, amount_usdt, fee, total_cost⟩, st3)

/-- `TradeExecutor.market_sell`, step for step: reject non-positive
amounts, absent positions, oversells and missing price data before any
write; otherwise compute proceeds, fee and realized PnL, close the
position when the remainder is at most `epsilon` (via
`update_position(symbol, 0, 0)`), credit the net proceeds and append the
trade log row. -/
def market_sell (feeRate : ℚ) (prices : String → Option ℚ) (st : Ledger)
    (sym : String) (amount_crypto : ℚ) : Except TradeError SellFill × Ledger :=
  if amount_crypto ≤ 0 then (.error .nonPositiveAmount, st)
  else match db_get_position st.positions sym with
  | none => (.error .noPosition, st)
  | some pos =>
    if pos.amount < amount_crypto then (.error .insufficientPosition, st)
    else match prices sym with
    | none => (.error .noPriceData, st)
    | some price =>
      let gross_proceeds := amount_crypto * price
      let fee := calculate_fee feeRate gross_proceeds
      let net_proceeds := gross_proceeds - fee
      let entry_cost := amount_crypto * pos.avg_entry_price
      let realized_pnl := net_proceeds - entry_cost
      let new_amount := pos.amount - amount_crypto
      let st1 :=
        if new_amount ≤ epsilon then acc_update_position prices st sym 0 0
        else acc_update_position prices st sym new_amount pos.avg_entry_price
      let st2 := update_cash_balance prices st1 (get_cash_balance st1 + net_proceeds)
      let st3 := { st2 with trades := st2.trades ++ [⟨sym, "sell", amount_crypto, price, fee, realized_pnl⟩] }
      (.ok ⟨amount_crypto, price, gross_proceeds, fee, net_proceeds, realized_pnl⟩, st3)

/-- A sequence of `market_buy` calls on one symbol: each step quotes the
oracle price for that step's pair `(quote_amount, entry_price)` and
requires the buy to succeed (`none` if any call is rejected). -/
def runBuys (feeRate : ℚ) (sym : String) :
    List (ℚ × ℚ) → Ledger → Option Ledger
  | [], st => some st
  | (q, p) :: rest, st =>
    match market_buy feeRate (fun s => if s = sym then some p else none) st sym q with
    | (.ok _, st') => runBuys feeRate sym rest st'
    | (.error _, _) => none

/-- Total quote currency spent by a buy sequence. -/
def totalQuote (l : List (ℚ × ℚ)) : ℚ :=
  (l.map (fun x => x.1)).sum

/-- Total base amount acquired by a buy sequence: each step buys
`quote_amount / entry_price`. -/
def totalBase (l : List (ℚ × ℚ)) : ℚ :=
  (l.map (fun x => x.1 / x.2)).sum

/-- The crossover memory values stored in `RsiEmaStrategy._last_crossover`
(`'bullish'` / `'bearish'`; `None` is modelled by `Option`). -/
inductive Crossover
  | bullish
  | bearish
deriving DecidableEq

/-- The signal classification of `strategies.base_strategy.Signal`. -/
inductive Signal
  | buy
  | sell
  | hold
deriving DecidableEq

/-- Which branch of `RsiEmaStrategy.analyze` produced the result
(abstracting the human-readable `reason` strings). -/
inductive Reason
  | insufficientData
  | missingIndicators
  | indicatorsNotAvailable
  | rsiOversoldEmaBullish
  | rsiOverboughtEmaBearish
  | bearishCrossNeutralRsi
  | holdContext
deriving DecidableEq

/-- `strategies.base_strategy.StrategyResult` (the `indicators` dict is
not modelled; it echoes inputs). -/
structure StrategyResult where
  signal : Signal
  confidence : ℚ
  reason : Reason
deriving DecidableEq

/-- One row of the indicator-annotated DataFrame; `none` models a
missing/NaN cell of a present column. -/
structure IndRow where
  close : Option ℚ
  rsi : Option ℚ
  ema_fast : Option ℚ
  ema_slow : Option ℚ
deriving DecidableEq

/-- The indicator-annotated DataFrame: which of the four required columns
exist, and the rows in chronological order (oldest first, as produced by
`database.get_ohlcv`). -/
structure Frame where
  hasClose : Bool
  hasRsi : Bool
  hasEmaFast : Bool
  hasEmaSlow : Bool
  rows : List IndRow
deriving DecidableEq

/-- `missing = [col for col in required if col not in df.columns]` is
nonempty. -/
def missingIndicatorColumns (df : Frame) : Bool :=
  !df.hasClose || !df.hasRsi || !df.hasEmaFast || !df.hasEmaSlow

/-- Python float comparison `a > b` with NaN on either side evaluating to
`False` (NaN modelled by `none`). -/
def optGt (a b : Option ℚ) : Bool :=
  match a, b with
  | some x, some y => decide (y < x)
  | _, _ => false

/-- The latest row has a missing/NaN `rsi`, `ema_fast` or `ema_slow`
(the check `pd.isna(rsi) or pd.isna(ema_fast) or pd.isna(ema_slow)` on
`df.iloc[-1]`; `close` and the previous row are not checked). -/
def latestIndicatorsNA (df : Frame) : Bool :=
  match df.rows.reverse with
  | current :: _ => current.rsi.isNone || current.ema_fast.isNone || current.ema_slow.isNone
  | [] => false

/-- `RsiEmaStrategy.analyze`, step for step. Inputs: the two RSI
thresholds (`self.rsi_oversold` / `self.rsi_overbought`), the mutable
`self._last_crossover` slot, the DataFrame and the current position
(only its presence matters). Output: the `StrategyResult` and the
post-call value of `_last_crossover`. The function is total: every
precondition violation yields a soft `HOLD`, never an exception. -/
def analyze (rsi_oversold rsi_overbought : ℚ) (last_crossover : Option Crossover)
    (df : Frame) (position : Option Position) :
    StrategyResult × Option Crossover :=
  if df.rows.length < 3 then
    (⟨.hold, 0, .insufficientData⟩, last_crossover)
  else if missingIndicatorColumns df then
    (⟨.hold, 0, .missingIndicators⟩, last_crossover)
  else match df.rows.reverse with
  | current :: previous :: _ =>
    if current.rsi.isNone || current.ema_fast.isNone || current.ema_slow.isNone then
      (⟨.hold, 0, .indicatorsNotAvailable⟩, last_crossover)
    else
      let rsi := current.rsi.getD 0
      let ema_fast := current.ema_fast.getD 0
      let ema_slow := current.ema_slow.getD 0
      let current_above : Bool := decide (ema_slow < ema_fast)
      let prev_above : Bool := optGt previous.ema_fast previous.ema_slow
      let bullish_crossover : Bool := !prev_above && current_above
      let bearish_crossover : Bool := prev_above && !current_above
      let last' : Option Crossover :=
        if bullish_crossover then some .bullish
        else if bearish_crossover then some .bearish
        else last_crossover
      let is_oversold : Bool := decide (rsi < rsi_oversold)
      let ema_bullish : Bool := current_above || decide (last' = some .bullish)
      let is_overbought : Bool := decide (rsi_overbought < rsi)
      let ema_bearish : Bool := !current_above || decide (last' = some .bearish)
      let result : StrategyResult :=
        if is_oversold && ema_bullish && position.isNone then
          ⟨.buy, min 100 ((rsi_oversold - rsi) * 3 + 50), .rsiOversoldEmaBullish⟩
        else if is_overbought && ema_bearish && position.isSome then
          ⟨.sell, min 100 ((rsi - rsi_overbought) * 3 + 50), .rsiOverboughtEmaBearish⟩
        else if position.isSome && (bearish_crossover && decide ((50:ℚ) < rsi)) then
          ⟨.sell, 60, .bearishCrossNeutralRsi⟩
        else
          ⟨.hold, 50, .holdContext⟩
      (result, last')
  | _ =>
    (⟨.hold, 0, .insufficientData⟩, last_crossover)

/-- Python `x or default` for an optional float argument: `None` and the
falsy `0.0` both select the default. -/
def orDefault (x : Option ℚ) (default : ℚ) : ℚ :=
  match x with
  | some v => if v = 0 then default else v
  | none => default

/-- The fields of an `RsiEmaStrategy` instance set by `__init__`. -/
structure RsiEmaStrategy where
  rsi_oversold : ℚ
  rsi_overbought : ℚ
  last_crossover : Option Crossover
deriving DecidableEq

/-- `RsiEmaStrategy.__init__`:
`self.rsi_oversold = rsi_oversold or config.RSI_OVERSOLD`,
`self.rsi_overbought = rsi_overbought or config.RSI_OVERBOUGHT`,
`self._last_crossover = None`. -/
def RsiEmaStrategy.init (rsi_oversold rsi_overbought : Option ℚ) : RsiEmaStrategy :=
  ⟨orDefault rsi_oversold RSI_OVERSOLD, orDefault rsi_overbought RSI_OVERBOUGHT, none⟩

/-- `analyze` as a method: reads the thresholds and crossover slot from
the instance and writes the slot back. -/
def RsiEmaStrategy.run (s : RsiEmaStrategy) (df : Frame)
    (position : Option Position) : StrategyResult × RsiEmaStrategy :=
  let r := analyze s.rsi_oversold s.rsi_overbought s.last_crossover df position
  (r.1, { s with last_crossover := r.2 })

/-! ## Helper lemmas and concrete fixtures -/

/-- A concrete price oracle used in witnesses: BTC/USD quoted at 100. -/
def exPrices : String → Option ℚ := fun s => if s = "BTC/USD" then some 100 else none

/-- A concrete freshly initialized ledger used in witnesses. -/
def exLedger : Ledger := ⟨some ⟨10000, 10000⟩, [], []⟩

/-- The ledger reached from `exLedger` by buying 100 USD of BTC/USD at
price 100 and then 300 USD at price 150 (fees 0.1 and 0.3; position 3
units at average entry 400/3). -/
def exFinal : Ledger :=
  ⟨some ⟨47998/5, 50248/5⟩, [("BTC/USD", ⟨3, 400/3⟩)],
   [⟨"BTC/USD", "buy", 1, 100, 1/10, 0⟩, ⟨"BTC/USD", "buy", 2, 150, 3/10, 0⟩]⟩

theorem db_get_position_delete_self (ps : List (String × Position)) (sym : String) :
    db_get_position (db_delete_position ps sym) sym = none := by
  induction ps with
  | nil => rfl
  | cons x rest ih =>
    unfold db_delete_position
    by_cases h : x.1 = sym
    · simp [h, ih]
    · simp [h, db_get_position, ih]

theorem db_get_position_update_self (ps : List (String × Position)) (sym : String)
    (amount avg_entry_price : ℚ) :
    db_get_position (db_update_position ps sym amount avg_entry_price) sym =
      if amount ≤ 0 then none else some ⟨amount, avg_entry_price⟩ := by
  unfold db_update_position
  by_cases h : amount ≤ 0
  · simp [h, db_get_position_delete_self]
  · simp [h, db_get_position]

theorem acc_update_position_get (prices : String → Option ℚ) (st : Ledger)
    (sym : String) (amount avg_entry_price : ℚ) :
    db_get_position (acc_update_position prices st sym amount avg_entry_price).positions sym =
      if amount ≤ 0 then none else some ⟨amount, avg_entry_price⟩ := by
  unfold acc_update_position db_update_account
  exact db_get_position_update_self st.positions sym amount avg_entry_price

theorem acc_update_position_positions (prices : String → Option ℚ) (st : Ledger)
    (sym : String) (amount avg_entry_price : ℚ) :
    (acc_update_position prices st sym amount avg_entry_price).positions =
      db_update_position st.positions sym amount avg_entry_price := rfl

theorem get_cash_balance_acc_update_position (prices : String → Option ℚ)
    (st : Ledger) (sym : String) (amount avg_entry_price : ℚ) :
    get_cash_balance (acc_update_position prices st sym amount avg_entry_price) =
      get_cash_balance st := rfl

theorem update_cash_balance_positions (prices : String → Option ℚ) (st : Ledger)
    (new_balance : ℚ) :
    (update_cash_balance prices st new_balance).positions = st.positions := rfl

theorem get_cash_balance_update_cash_balance (prices : String → Option ℚ)
    (st : Ledger) (new_balance : ℚ) :
    get_cash_balance (update_cash_balance prices st new_balance) = new_balance := rfl

theorem get_cash_balance_set_trades (st : Ledger) (t : List Trade) :
    get_cash_balance { st with trades := t } = get_cash_balance st := rfl

theorem market_buy_ok_inv (feeRate : ℚ) (prices : String → Option ℚ) (st : Ledger)
    (sym : String) (amt : ℚ) (r : BuyFill) (st' : Ledger)
    (h : market_buy feeRate prices st sym amt = (.ok r, st')) :
    0 < amt ∧ prices sym = some r.price ∧
    st'.positions =
      (match db_get_position st.positions sym with
       | some pos => db_update_position st.positions sym (pos.amount + amt / r.price)
           ((pos.amount * pos.avg_entry_price + amt) / (pos.amount + amt / r.price))
       | none => db_update_position st.positions sym (amt / r.price) r.price) := by
  unfold market_buy at h
  split at h
  · simp at h
  · rename_i hamt
    split at h
    · simp at h
    · rename_i p hp
      split at h
      · simp at h
      · rw [Prod.mk.injEq, Except.ok.injEq] at h
        obtain ⟨hr, hst⟩ := h
        subst hr
        subst hst
        refine ⟨lt_of_not_le hamt, hp, ?_⟩
        cases hd : db_get_position st.positions sym <;>
          simp only [hd, acc_update_position_positions, update_cash_balance_positions]

theorem market_buy_success_char (feeRate : ℚ) (prices : String → Option ℚ)
    (st : Ledger) (sym : String) (amt p : ℚ)
    (hp : prices sym = some p) (hamt : 0 < amt)
    (hca : can_afford feeRate st amt = true) :
    (market_buy feeRate prices st sym amt).1 =
      .ok ⟨amt / p, p, amt, amt * feeRate, amt + amt * feeRate⟩ ∧
    get_cash_balance (market_buy feeRate prices st sym amt).2 =
      get_cash_balance st - (amt + amt * feeRate) ∧
    (market_buy feeRate prices st sym amt).2.positions =
      (match db_get_position st.positions sym with
       | some pos => db_update_position st.positions sym (pos.amount + amt / p)
           ((pos.amount * pos.avg_entry_price + amt) / (pos.amount + amt / p))
       | none => db_update_position st.positions sym (amt / p) p) := by
  unfold market_buy
  rw [hp]
  simp only [if_neg (not_le.mpr hamt), if_neg (not_not_intro hca), calculate_fee]
  refine ⟨trivial, ?_, ?_⟩
  · cases hd : db_get_position st.positions sym <;>
      simp only [hd, get_cash_balance_set_trades, get_cash_balance_update_cash_balance,
        get_cash_balance_acc_update_position]
  · cases hd : db_get_position st.positions sym <;>
      simp only [hd, acc_update_position_positions, update_cash_balance_positions]

theorem market_sell_success_char (feeRate : ℚ) (prices : String → Option ℚ)
    (st : Ledger) (sym : String) (amt a e p : ℚ)
    (hpos : db_get_position st.positions sym = some ⟨a, e⟩)
    (hprice : prices sym = some p)
    (hamt : 0 < amt) (hle : amt ≤ a) :
    (market_sell feeRate prices st sym amt).1 =
      .ok ⟨amt, p, amt * p, amt * p * feeRate, amt * p - amt * p * feeRate,
           amt * p - amt * p * feeRate - amt * e⟩ ∧
    get_cash_balance (market_sell feeRate prices st sym amt).2 =
      get_cash_balance st + (amt * p - amt * p * feeRate) ∧
    (a - amt ≤ epsilon →
      db_get_position (market_sell feeRate prices st sym amt).2.positions sym = none) ∧
    (epsilon < a - amt →
      db_get_position (market_sell feeRate prices st sym amt).2.positions sym =
        some ⟨a - amt, e⟩) := by
  have hns : ¬ amt ≤ 0 := not_le.mpr hamt
  have hnl : ¬ a < amt := not_lt.mpr hle
  unfold market_sell
  rw [hpos, hprice]
  simp only [if_neg hns, if_neg hnl, calculate_fee]
  refine ⟨trivial, ?_, ?_, ?_⟩
  · rw [get_cash_balance_set_trades, get_cash_balance_update_cash_balance]
    split <;> rw [get_cash_balance_acc_update_position]
  · intro h
    simp only [get_cash_balance_set_trades, update_cash_balance_positions, if_pos h,
      acc_update_position_get]
    norm_num
  · intro h
    have h' : ¬ a - amt ≤ epsilon := not_le.mpr h
    have h0 : ¬ a - amt ≤ 0 := by
      intro hc
      exact h' (hc.trans (by norm_num [epsilon]))
    simp only [get_cash_balance_set_trades, update_cash_balance_positions, if_neg h',
      acc_update_position_get, if_neg h0]

theorem runBuys_position_aux (feeRate : ℚ) (sym : String) (l : List (ℚ × ℚ))
    (hp : ∀ x ∈ l, 0 < x.2) :
    ∀ st stF A Q, runBuys feeRate sym l st = some stF →
      db_get_position st.positions sym = some ⟨A, Q / A⟩ →
      0 < A →
      db_get_position stF.positions sym =
        some ⟨A + totalBase l, (Q + totalQuote l) / (A + totalBase l)⟩ := by
  induction l with
  | nil =>
    intro st stF A Q hrun h0 hA
    simp only [runBuys, Option.some.injEq] at hrun
    subst hrun
    simpa [totalBase, totalQuote] using h0
  | cons x rest ih =>
    obtain ⟨q, p⟩ := x
    intro st stF A Q hrun h0 hA
    have hppos : 0 < p := hp (q, p) (List.mem_cons_self _ _)
    unfold runBuys at hrun
    rcases hmb : market_buy feeRate (fun s => if s = sym then some p else none) st sym q with ⟨r, st'⟩
    rw [hmb] at hrun
    rcases r with err | fill
    case error => simp at hrun
    case ok =>
      obtain ⟨hq, hpr, hpos'⟩ := market_buy_ok_inv _ _ _ _ _ _ _ hmb
      have hfp : fill.price = p := by
        simp at hpr
        exact hpr.symm
      rw [hfp, h0] at hpos'
      have hbase : 0 < q / p := div_pos hq hppos
      have hA' : 0 < A + q / p := by linarith
      have hstep : db_get_position st'.positions sym =
          some ⟨A + q / p, (Q + q) / (A + q / p)⟩ := by
        rw [hpos', db_get_position_update_self, if_neg (not_le.mpr hA')]
        congr 2
        rw [mul_comm, div_mul_cancel₀ Q (ne_of_gt hA)]
      have hrec := ih (fun x hx => hp x (List.mem_cons_of_mem _ hx)) st' stF
        (A + q / p) (Q + q) hrun hstep hA'
      rw [hrec]
      have e1 : A + q / p + totalBase rest = A + totalBase ((q, p) :: rest) := by
        simp [totalBase]
        ring
      have e2 : Q + q + totalQuote rest = Q + totalQuote ((q, p) :: rest) := by
        simp [totalQuote]
        ring
      rw [e1, e2]

/-- C1: every rejected `market_buy` or `market_sell` (non-positive amount,
missing price data, insufficient balance, no position, insufficient
position) leaves the Ledger state — account row (cash and equity),
positions table and trade log — exactly as it was. -/
theorem rejected_trade_preserves_ledger (feeRate : ℚ) (prices : String → Option ℚ)
    (st : Ledger) (sym : String) (amt : ℚ) (e : TradeError) :
    (∀ st', market_buy feeRate prices st sym amt = (.error e, st') → st' = st) ∧
    (∀ st', market_sell feeRate prices st sym amt = (.error e, st') → st' = st) := by
  constructor
  · intro st' h
    unfold market_buy at h
    split at h
    · exact (Prod.mk.injEq _ _ _ _ ▸ h).2.symm
    · split at h
      · exact (Prod.mk.injEq _ _ _ _ ▸ h).2.symm
      · split at h
        · exact (Prod.mk.injEq _ _ _ _ ▸ h).2.symm
        · simp at h
  · intro st' h
    unfold market_sell at h
    split at h
    · exact (Prod.mk.injEq _ _ _ _ ▸ h).2.symm
    · split at h
      · exact (Prod.mk.injEq _ _ _ _ ▸ h).2.symm
      · split at h
        · exact (Prod.mk.injEq _ _ _ _ ▸ h).2.symm
        · split at h
          · exact (Prod.mk.injEq _ _ _ _ ▸ h).2.symm
          · simp at h

/-- C1 witness: a concrete rejected buy (no price data) and a concrete
rejected sell (no position) leave a concrete ledger unchanged. -/
theorem rejected_trade_preserves_ledger_witness :
    (market_buy fee_percent (fun _ => none) exLedger "BTC/USD" 1000).2 = exLedger ∧
    (market_sell fee_percent exPrices exLedger "BTC/USD" 1).2 = exLedger :=
  ⟨(rejected_trade_preserves_ledger fee_percent (fun _ => none) exLedger "BTC/USD" 1000
      .noPriceData).1 _ (by norm_num [market_buy]),
   (rejected_trade_preserves_ledger fee_percent exPrices exLedger "BTC/USD" 1
      .noPosition).2 _ (by norm_num [market_sell, exLedger, db_get_position])⟩

/-- C4 counterexample: buying X = 1000 at price 100 (buy fee 1) and
selling the full 10 units back at the same price (sell fee 1) yields
`net_proceeds = 999 = X − sell_fee` and `realized_pnl = −1 = −sell_fee`,
whereas the claim predicts `net_proceeds = X − buy_fee − sell_fee = 998`
and `realized PnL = −buy_fee − sell_fee = −2`: the buy fee is charged on
top of the spend and never enters the cost basis, so it does not reappear
in the sell's proceeds or PnL. -/
theorem roundtrip_fee_counterexample :
    (market_buy fee_percent exPrices exLedger "BTC/USD" 1000).1 =
      .ok ⟨10, 100, 1000, 1, 1001⟩ ∧
    (market_sell fee_percent exPrices
        (market_buy fee_percent exPrices exLedger "BTC/USD" 1000).2 "BTC/USD" 10).1 =
      .ok ⟨10, 100, 1000, 1, 999, -1⟩ ∧
    (999 : ℚ) ≠ 1000 - 1 - 1 ∧ (-1 : ℚ) ≠ -1 - 1 := by
  refine ⟨?_, ?_, by norm_num, by norm_num⟩ <;>
    norm_num [market_buy, market_sell, can_afford, calculate_fee, get_cash_balance,
      acc_update_position, update_cash_balance, db_update_account, db_update_position,
      db_delete_position, db_get_position, calculate_total_equity, db_get_all_positions,
      epsilon, exPrices, exLedger, fee_percent, TRADING_FEE_PERCENT]

/-- C4 (amended): for every `X > 0`, buying `X` quote-currency worth and
immediately selling the entire resulting base amount `X / p` at the same
price `p` yields `net_proceeds = X − sell_fee` and realized
`PnL = −sell_fee` (the buy fee never enters the cost basis), the round
trip reduces cash by exactly `buy_fee + sell_fee` (with
`buy_fee = sell_fee = X × f`), and the position is removed. -/
theorem roundtrip_spec (feeRate : ℚ) (prices : String → Option ℚ) (st : Ledger)
    (sym : String) (X p : ℚ)
    (hp : prices sym = some p) (hX : 0 < X) (hppos : 0 < p)
    (h0 : db_get_position st.positions sym = none)
    (hca : can_afford feeRate st X = true) :
    (market_buy feeRate prices st sym X).1 =
      .ok ⟨X / p, p, X, X * feeRate, X + X * feeRate⟩ ∧
    (market_sell feeRate prices (market_buy feeRate prices st sym X).2 sym (X / p)).1 =
      .ok ⟨X / p, p, X, X * feeRate, X - X * feeRate, -(X * feeRate)⟩ ∧
    get_cash_balance
        (market_sell feeRate prices (market_buy feeRate prices st sym X).2 sym (X / p)).2 =
      get_cash_balance st - X * feeRate - X * feeRate ∧
    db_get_position
        (market_sell feeRate prices (market_buy feeRate prices st sym X).2 sym (X / p)).2.positions
        sym = none := by
  obtain ⟨hbres, hbcash, hbpos⟩ := market_buy_success_char feeRate prices st sym X p hp hX hca
  rw [h0] at hbpos
  have hbase : 0 < X / p := div_pos hX hppos
  have hlook : db_get_position (market_buy feeRate prices st sym X).2.positions sym =
      some ⟨X / p, p⟩ := by
    rw [hbpos, db_get_position_update_self, if_neg (not_le.mpr hbase)]
  obtain ⟨hsres, hscash, hsclose, _⟩ := market_sell_success_char feeRate prices
    (market_buy feeRate prices st sym X).2 sym (X / p) (X / p) p p hlook hp hbase le_rfl
  have hgross : X / p * p = X := div_mul_cancel₀ X (ne_of_gt hppos)
  refine ⟨hbres, ?_, ?_, ?_⟩
  · rw [hsres, hgross]
    congr 1
    rw [SellFill.mk.injEq]
    refine ⟨rfl, rfl, rfl, rfl, rfl, by ring⟩
  · rw [hscash, hgross, hbcash]
    ring
  · exact hsclose (by norm_num [epsilon])

/-- C4 witness: the amended round trip at X = 1000, price 100, fee 0.1%
on a fresh ledger. -/
theorem roundtrip_spec_witness :
    (market_buy fee_percent exPrices exLedger "BTC/USD" 1000).1 =
      .ok ⟨1000 / 100, 100, 1000, 1000 * fee_percent, 1000 + 1000 * fee_percent⟩ ∧
    (market_sell fee_percent exPrices
        (market_buy fee_percent exPrices exLedger "BTC/USD" 1000).2 "BTC/USD" (1000 / 100)).1 =
      .ok ⟨1000 / 100, 100, 1000, 1000 * fee_percent, 1000 - 1000 * fee_percent,
           -(1000 * fee_percent)⟩ ∧
    get_cash_balance
        (market_sell fee_percent exPrices
          (market_buy fee_percent exPrices exLedger "BTC/USD" 1000).2 "BTC/USD" (1000 / 100)).2 =
      get_cash_balance exLedger - 1000 * fee_percent - 1000 * fee_percent ∧
    db_get_position
        (market_sell fee_percent exPrices
          (market_buy fee_percent exPrices exLedger "BTC/USD" 1000).2 "BTC/USD"
          (1000 / 100)).2.positions "BTC/USD" = none :=
  roundtrip_spec fee_percent exPrices exLedger "BTC/USD" 1000 100
    (by simp [exPrices]) (by norm_num) (by norm_num)
    (by simp [db_get_position, exLedger])
    (by norm_num [can_afford, calculate_fee, get_cash_balance, exLedger, fee_percent,
      TRADING_FEE_PERCENT])

/-- C5: `can_afford(trade_value)` returns true iff
`cash_balance ≥ trade_value × (1 + fee_rate)`, equality permitted. -/
theorem can_afford_iff (feeRate : ℚ) (st : Ledger) (trade_value : ℚ) :
    can_afford feeRate st trade_value = true ↔
      trade_value * (1 + feeRate) ≤ get_cash_balance st := by
  unfold can_afford calculate_fee
  rw [decide_eq_true_iff, mul_add, mul_one]

/-- C5 witness: the boundary case — a 10000 cash balance affords exactly a
`10000 / 1.001` trade at the 0.1% fee rate. -/
theorem can_afford_iff_witness :
    can_afford fee_percent exLedger (10000 / (1001/1000)) = true :=
  (can_afford_iff fee_percent exLedger (10000 / (1001/1000))).mpr
    (by norm_num [fee_percent, TRADING_FEE_PERCENT, get_cash_balance, exLedger])

/-- C6 counterexample: `update_position` called with
`new_amount = 1e-6 ≤ epsilon` stores the position instead of deleting it,
so a position with `0 < amount ≤ epsilon` ends up in the table. -/
theorem update_position_stores_epsilon_dust :
    (1:ℚ)/1000000 ≤ epsilon ∧ (0:ℚ) < 1/1000000 ∧
    db_get_position
      (acc_update_position exPrices exLedger "BTC/USD" (1/1000000) 50000).positions
      "BTC/USD" = some ⟨1/1000000, 50000⟩ := by
  refine ⟨by norm_num [epsilon], by norm_num, ?_⟩
  rw [acc_update_position_get]
  norm_num

/-- C6 (amended): `update_position(symbol, new_amount, new_avg_price)`
deletes the position whenever `new_amount ≤ 0` and upserts it otherwise;
the `≤ epsilon` dust threshold is applied by `market_sell` before calling
it, not by `update_position` itself, so a direct call can store a
position with `0 < amount ≤ epsilon`. -/
theorem update_position_delete_iff (prices : String → Option ℚ) (st : Ledger)
    (sym : String) (new_amount new_avg_price : ℚ) :
    db_get_position
      (acc_update_position prices st sym new_amount new_avg_price).positions sym =
      if new_amount ≤ 0 then none else some ⟨new_amount, new_avg_price⟩ :=
  acc_update_position_get prices st sym new_amount new_avg_price

/-- C7 counterexample: on a ledger with no account row,
`get_cash_balance()` returns `0.0`, not the configured starting balance,
and performs no initialization (it is a pure read: the embedding returns
only a number, faithful to the Python code which issues no write). -/
theorem get_cash_balance_uninitialized_returns_zero :
    (Ledger.mk none [] []).account = none ∧
    get_cash_balance ⟨none, [], []⟩ = 0 ∧
    get_cash_balance ⟨none, [], []⟩ ≠ STARTING_BALANCE_USDT := by
  refine ⟨rfl, rfl, by norm_num [get_cash_balance, STARTING_BALANCE_USDT]⟩

/-- C7 (amended): `get_cash_balance()` never fails (it is total): it
returns the account row's `cash_balance` when the row exists, and `0.0` —
not the configured starting balance — when it does not; it does not
auto-initialize the account. -/
theorem get_cash_balance_never_fails (st : Ledger) :
    (∀ a, st.account = some a → get_cash_balance st = a.cash_balance) ∧
    (st.account = none →
      get_cash_balance st = 0 ∧ get_cash_balance st ≠ STARTING_BALANCE_USDT) := by
  constructor
  · intro a h
    unfold get_cash_balance
    rw [h]
  · intro h
    unfold get_cash_balance
    rw [h]
    norm_num [STARTING_BALANCE_USDT]

/-- C7 witness: the amended statement at an uninitialized ledger and at a
concrete initialized one. -/
theorem get_cash_balance_never_fails_witness :
    (get_cash_balance ⟨none, [], []⟩ = 0 ∧
      get_cash_balance ⟨none, [], []⟩ ≠ STARTING_BALANCE_USDT) ∧
    get_cash_balance exLedger = (10000:ℚ) :=
  ⟨(get_cash_balance_never_fails ⟨none, [], []⟩).2 rfl,
   (get_cash_balance_never_fails exLedger).1 ⟨10000, 10000⟩ rfl⟩

theorem totalBase_cons (q p : ℚ) (l : List (ℚ × ℚ)) :
    totalBase ((q, p) :: l) = q / p + totalBase l := by
  simp [totalBase]

theorem totalQuote_cons (q p : ℚ) (l : List (ℚ × ℚ)) :
    totalQuote ((q, p) :: l) = q + totalQuote l := by
  simp [totalQuote]

/-- C2: buying onto an existing position `⟨a, e⟩` with `quote_amount`
at price `p` yields amount `a + quote_amount / p` and average entry
price `(a × e + quote_amount) / (a + quote_amount / p)` — the
quote-weighted re-averaging formula; and any successful sequence of buys
on one symbol starting from no position ends with amount
`totalBase = Σ qᵢ/pᵢ` and average entry price
`totalQuote / totalBase = (Σ qᵢ) / (Σ qᵢ/pᵢ)` — the quote-amount-weighted
(harmonic) average of the entry prices, which depends only on the sums,
hence is independent of how the total spend is split across
intermediate buys. -/
theorem buy_weighted_averaging (feeRate : ℚ) (sym : String) :
    (∀ (prices : String → Option ℚ) (st : Ledger) (amt p a e : ℚ),
      prices sym = some p → 0 < amt → 0 < a → 0 < p →
      can_afford feeRate st amt = true →
      db_get_position st.positions sym = some ⟨a, e⟩ →
      db_get_position (market_buy feeRate prices st sym amt).2.positions sym =
        some ⟨a + amt / p, (a * e + amt) / (a + amt / p)⟩) ∧
    (∀ (l : List (ℚ × ℚ)) (st stF : Ledger), l ≠ [] →
      (∀ x ∈ l, 0 < x.2) →
      db_get_position st.positions sym = none →
      runBuys feeRate sym l st = some stF →
      db_get_position stF.positions sym =
        some ⟨totalBase l, totalQuote l / totalBase l⟩) := by
  constructor
  · intro prices st amt p a e hp hamt ha hppos hca hpos
    unfold market_buy
    rw [hp]
    simp only [if_neg (not_le.mpr hamt), if_neg (not_not_intro hca), hpos,
      acc_update_position_positions, update_cash_balance_positions]
    rw [db_get_position_update_self]
    have : 0 < a + amt / p := by positivity
    rw [if_neg (not_le.mpr this)]
  · intro l st stF hne hp h0 hrun
    cases l with
    | nil => exact absurd rfl hne
    | cons x rest =>
      obtain ⟨q, p⟩ := x
      have hppos : 0 < p := hp (q, p) (List.mem_cons_self _ _)
      unfold runBuys at hrun
      rcases hmb : market_buy feeRate (fun s => if s = sym then some p else none) st sym q
        with ⟨r, st'⟩
      rw [hmb] at hrun
      rcases r with err | fill
      case error => simp at hrun
      case ok =>
        obtain ⟨hq, hpr, hpos'⟩ := market_buy_ok_inv _ _ _ _ _ _ _ hmb
        have hfp : fill.price = p := by
          simp at hpr
          exact hpr.symm
        rw [hfp, h0] at hpos'
        have hbase : 0 < q / p := div_pos hq hppos
        have hstep : db_get_position st'.positions sym =
            some ⟨q / p, q / (q / p)⟩ := by
          rw [hpos', db_get_position_update_self, if_neg (not_le.mpr hbase)]
          congr 2
          rw [div_div_cancel₀ (ne_of_gt hq)]
        have hrec := runBuys_position_aux feeRate sym rest
          (fun x hx => hp x (List.mem_cons_of_mem _ hx)) st' stF (q / p) q
          hrun hstep hbase
        rw [hrec, totalBase_cons, totalQuote_cons]

/-- C2 witness: buying 100 at price 100 onto a position of 1 unit at
entry 100 re-averages to `⟨2, 100⟩`; and the two-buy sequence
(100 @ 100, then 300 @ 150) from a fresh ledger ends with amount 3 and
average entry `400 / 3`. -/
theorem buy_weighted_averaging_witness :
    db_get_position (market_buy fee_percent exPrices
        ⟨some ⟨10000, 10000⟩, [("BTC/USD", ⟨1, 100⟩)], []⟩ "BTC/USD" 100).2.positions
      "BTC/USD" = some ⟨1 + 100 / 100, (1 * 100 + 100) / (1 + 100 / 100)⟩ ∧
    db_get_position exFinal.positions "BTC/USD" =
      some ⟨totalBase [(100, 100), (300, 150)],
            totalQuote [(100, 100), (300, 150)] / totalBase [(100, 100), (300, 150)]⟩ :=
  ⟨(buy_weighted_averaging fee_percent "BTC/USD").1 exPrices
      ⟨some ⟨10000, 10000⟩, [("BTC/USD", ⟨1, 100⟩)], []⟩ 100 100 1 100
      (by simp [exPrices]) (by norm_num) (by norm_num) (by norm_num)
      (by norm_num [can_afford, calculate_fee, get_cash_balance, fee_percent,
        TRADING_FEE_PERCENT])
      (by simp [db_get_position]),
   (buy_weighted_averaging fee_percent "BTC/USD").2 [(100, 100), (300, 150)]
      exLedger exFinal (by simp)
      (by norm_num)
      (by simp [db_get_position, exLedger])
      (by norm_num [runBuys, market_buy, can_afford, calculate_fee, get_cash_balance,
        acc_update_position, update_cash_balance, db_update_account, db_update_position,
        db_delete_position, db_get_position, calculate_total_equity, db_get_all_positions,
        exLedger, exFinal, fee_percent, TRADING_FEE_PERCENT])⟩

/-- C3: a successful `market_sell(symbol, base_amount)` at price `p` with
fee rate `f` against a position `⟨a, e⟩` returns
`gross_proceeds = base_amount × p`, `fee = gross_proceeds × f`,
`net_proceeds = gross_proceeds − fee` and
`realized_pnl = net_proceeds − base_amount × e`, credits exactly
`net_proceeds` to the cash balance, removes the position entirely when
the remainder `a − base_amount` is at most `epsilon = 1e-6`, and
otherwise keeps the remainder at the unchanged average entry price. -/
theorem market_sell_success_spec (feeRate : ℚ) (prices : String → Option ℚ)
    (st : Ledger) (sym : String) (amt a e p : ℚ)
    (hpos : db_get_position st.positions sym = some ⟨a, e⟩)
    (hprice : prices sym = some p)
    (hamt : 0 < amt) (hle : amt ≤ a) :
    (market_sell feeRate prices st sym amt).1 =
      .ok ⟨amt, p, amt * p, amt * p * feeRate, amt * p - amt * p * feeRate,
           amt * p - amt * p * feeRate - amt * e⟩ ∧
    get_cash_balance (market_sell feeRate prices st sym amt).2 =
      get_cash_balance st + (amt * p - amt * p * feeRate) ∧
    (a - amt ≤ epsilon →
      db_get_position (market_sell feeRate prices st sym amt).2.positions sym = none) ∧
    (epsilon < a - amt →
      db_get_position (market_sell feeRate prices st sym amt).2.positions sym =
        some ⟨a - amt, e⟩) :=
  market_sell_success_char feeRate prices st sym amt a e p hpos hprice hamt hle

/-- C3 witness: selling 1 of a 2-unit BTC/USD position entered at 50 with
the market at 100 and a 0.1% fee yields gross 100, fee 0.1, net 99.9,
realized PnL 49.9, credits 99.9 to cash, and leaves 1 unit at entry 50. -/
theorem market_sell_success_spec_witness :
    (market_sell fee_percent exPrices
        ⟨some ⟨10000, 10000⟩, [("BTC/USD", ⟨2, 50⟩)], []⟩ "BTC/USD" 1).1 =
      .ok ⟨1, 100, 1 * 100, 1 * 100 * fee_percent, 1 * 100 - 1 * 100 * fee_percent,
           1 * 100 - 1 * 100 * fee_percent - 1 * 50⟩ ∧
    get_cash_balance (market_sell fee_percent exPrices
        ⟨some ⟨10000, 10000⟩, [("BTC/USD", ⟨2, 50⟩)], []⟩ "BTC/USD" 1).2 =
      get_cash_balance ⟨some ⟨10000, 10000⟩, [("BTC/USD", ⟨2, 50⟩)], []⟩ +
        (1 * 100 - 1 * 100 * fee_percent) ∧
    ((2:ℚ) - 1 ≤ epsilon →
      db_get_position (market_sell fee_percent exPrices
        ⟨some ⟨10000, 10000⟩, [("BTC/USD", ⟨2, 50⟩)], []⟩ "BTC/USD" 1).2.positions
        "BTC/USD" = none) ∧
    (epsilon < (2:ℚ) - 1 →
      db_get_position (market_sell fee_percent exPrices
        ⟨some ⟨10000, 10000⟩, [("BTC/USD", ⟨2, 50⟩)], []⟩ "BTC/USD" 1).2.positions
        "BTC/USD" = some ⟨2 - 1, 50⟩) :=
  market_sell_success_spec fee_percent exPrices
    ⟨some ⟨10000, 10000⟩, [("BTC/USD", ⟨2, 50⟩)], []⟩ "BTC/USD" 1 2 50 100
    (by simp [db_get_position]) (by simp [exPrices]) (by norm_num) (by norm_num)

/-- C8 counterexample: with `prev_fast = prev_slow = 1` and
`curr_fast = 0 < 1 = curr_slow` the claim's bearish condition
`prev_fast ≥ prev_slow ∧ curr_fast < curr_slow` holds, yet `analyze`
detects nothing and leaves `last_crossover` at `none` (the code requires
strictly `prev_fast > prev_slow`). -/
theorem bearish_boundary_not_detected :
    (1:ℚ) ≥ 1 ∧ (0:ℚ) < 1 ∧
    (analyze 30 70 none
      ⟨true, true, true, true,
        [⟨some 1, some 1, some 1, some 1⟩,
         ⟨some 1, some 1, some 1, some 1⟩,
         ⟨some 1, some 50, some 0, some 1⟩]⟩ none).2 = none := by
  refine ⟨le_refl 1, by norm_num, ?_⟩
  norm_num [analyze, missingIndicatorColumns, optGt]

/-- C8 (amended): for consecutive indicator rows with all four values
present, `analyze` detects a bullish crossover exactly when
`prev_fast ≤ prev_slow` and `curr_fast > curr_slow` (as claimed), and a
bearish crossover exactly when `prev_fast > prev_slow` and
`curr_fast ≤ curr_slow` (strict on the previous row, weak on the current
one — the converse of the claim's `≥`/`<`); each detection overwrites the
persistent `last_crossover`, which is otherwise left unchanged. -/
theorem crossover_detection_spec (rsi_oversold rsi_overbought : ℚ)
    (last : Option Crossover) (pos : Option Position) (rs : List IndRow)
    (hrs : rs ≠ []) (pcl prsi pf ps cl rsi cf cs : ℚ) :
    (analyze rsi_oversold rsi_overbought last
      ⟨true, true, true, true,
        rs ++ [⟨some pcl, some prsi, some pf, some ps⟩,
               ⟨some cl, some rsi, some cf, some cs⟩]⟩ pos).2 =
      (if pf ≤ ps ∧ cs < cf then some .bullish
       else if ps < pf ∧ cf ≤ cs then some .bearish
       else last) := by
  have hlen : ¬ (rs ++ [(⟨some pcl, some prsi, some pf, some ps⟩ : IndRow),
      ⟨some cl, some rsi, some cf, some cs⟩]).length < 3 := by
    have := List.length_pos.mpr hrs
    simp only [List.length_append, List.length_cons, List.length_nil]
    omega
  unfold analyze
  rw [if_neg hlen]
  simp only [missingIndicatorColumns, Bool.not_true, Bool.or_self, Bool.false_or,
    Bool.or_false, if_false, List.reverse_append, List.reverse_cons, List.reverse_nil,
    List.nil_append, List.cons_append, List.append_assoc]
  simp only [optGt, Option.isNone_some, Option.getD_some, Bool.or_self, if_false]
  by_cases h1 : ps < pf <;> by_cases h2 : cs < cf
  · simp [h1, h2, not_le.mpr h1, not_le.mpr h2]
  · simp [h1, h2, not_le.mpr h1, not_lt.mp h2]
  · simp [h1, h2, not_lt.mp h1]
  · simp [h1, h2, not_lt.mp h1, not_lt.mp h2]

/-- C8 witness: a concrete bullish crossover (fast EMA moves from 1 ≤ 2
to 3 > 2) sets `last_crossover` to bullish. -/
theorem crossover_detection_spec_witness :
    (analyze 30 70 none
      ⟨true, true, true, true,
        [⟨some 1, some 1, some 1, some 1⟩] ++
          [⟨some 1, some 50, some 1, some 2⟩, ⟨some 1, some 50, some 3, some 2⟩]⟩
      none).2 =
      (if (1:ℚ) ≤ 2 ∧ (2:ℚ) < 3 then some Crossover.bullish
       else if (2:ℚ) < 1 ∧ (3:ℚ) ≤ 2 then some Crossover.bearish
       else none) :=
  crossover_detection_spec 30 70 none none [⟨some 1, some 1, some 1, some 1⟩]
    (by simp) 1 50 1 2 1 50 3 2

/-- C9 counterexample: a missing (NaN) `ema_fast` in the second-to-last
row — one of the "latest two data points" the claim covers — does not
trigger the soft-failure branch: `analyze` proceeds and returns a normal
HOLD with confidence 50, because the code's NaN check inspects only the
latest row's `rsi`, `ema_fast` and `ema_slow`. -/
theorem prev_row_nan_not_soft_failure :
    (⟨some 1, some 1, none, some 1⟩ : IndRow).ema_fast = none ∧
    (analyze 30 70 none
      ⟨true, true, true, true,
        [⟨some 1, some 1, some 1, some 1⟩,
         ⟨some 1, some 1, none, some 1⟩,
         ⟨some 1, some 50, some 2, some 1⟩]⟩ none).1.signal = .hold ∧
    (analyze 30 70 none
      ⟨true, true, true, true,
        [⟨some 1, some 1, some 1, some 1⟩,
         ⟨some 1, some 1, none, some 1⟩,
         ⟨some 1, some 50, some 2, some 1⟩]⟩ none).1.confidence = 50 := by
  refine ⟨rfl, ?_, ?_⟩ <;> norm_num [analyze, missingIndicatorColumns, optGt]

theorem result_chain_not_soft (c1 c2 c3 : Prop) [Decidable c1] [Decidable c2]
    [Decidable c3] (q1 q2 : ℚ) :
    ¬(((if c1 then (⟨.buy, q1, .rsiOversoldEmaBullish⟩ : StrategyResult)
        else if c2 then ⟨.sell, q2, .rsiOverboughtEmaBearish⟩
        else if c3 then ⟨.sell, 60, .bearishCrossNeutralRsi⟩
        else ⟨.hold, 50, .holdContext⟩).signal = .hold) ∧
      ((if c1 then (⟨.buy, q1, .rsiOversoldEmaBullish⟩ : StrategyResult)
        else if c2 then ⟨.sell, q2, .rsiOverboughtEmaBearish⟩
        else if c3 then ⟨.sell, 60, .bearishCrossNeutralRsi⟩
        else ⟨.hold, 50, .holdContext⟩).confidence = 0)) := by
  by_cases h1 : c1 <;> by_cases h2 : c2 <;> by_cases h3 : c3 <;>
    norm_num [h1, h2, h3] <;>
    exact fun h => absurd h (by decide)

/-- C9 (amended): `analyze` is a total function (it never raises), and it
returns the soft failure — HOLD with confidence 0 — exactly when the
series has fewer than 3 data points, or one of the columns
`close`, `rsi`, `ema_fast`, `ema_slow` is absent, or one of `rsi`,
`ema_fast`, `ema_slow` is missing/NaN in the latest data point; `close`
values and the second-to-last row's values are not checked. -/
theorem analyze_soft_failure_iff (rsi_oversold rsi_overbought : ℚ)
    (last : Option Crossover) (df : Frame) (pos : Option Position) :
    ((analyze rsi_oversold rsi_overbought last df pos).1.signal = .hold ∧
      (analyze rsi_oversold rsi_overbought last df pos).1.confidence = 0) ↔
      (df.rows.length < 3 ∨ missingIndicatorColumns df = true ∨
        latestIndicatorsNA df = true) := by
  unfold analyze
  split
  · rename_i hlen
    simp [hlen]
  · rename_i hlen
    split
    · rename_i hmiss
      simp [hmiss]
    · rename_i hmiss
      split
      · rename_i current previous rest heq
        split
        · rename_i hna
          simp [hlen, hmiss, latestIndicatorsNA, heq, hna]
        · rename_i hna
          refine iff_of_false ?_ ?_
          · exact result_chain_not_soft _ _ _ _ _
          · rintro (h | h | h)
            · exact hlen h
            · exact hmiss h
            · simp only [latestIndicatorsNA, heq] at h
              exact hna h
      · rename_i hshape
        exfalso
        apply hlen
        rw [← List.length_reverse]
        match hrev : df.rows.reverse with
        | [] => simp
        | [a] => simp
        | a :: b :: l => exact absurd rfl (by rw [hrev] at hshape; exact fun h => hshape a b l h)

/-- C9 witness: the amended iff at concrete inputs — an empty frame is a
soft failure, and a frame missing the `rsi` column is a soft failure. -/
theorem analyze_soft_failure_iff_witness :
    ((analyze 30 70 none ⟨true, true, true, true, []⟩ none).1.signal = .hold ∧
      (analyze 30 70 none ⟨true, true, true, true, []⟩ none).1.confidence = 0) ∧
    ((analyze 30 70 none ⟨true, false, true, true,
        [⟨some 1, some 1, some 1, some 1⟩, ⟨some 1, some 1, some 1, some 1⟩,
         ⟨some 1, some 1, some 1, some 1⟩]⟩ none).1.signal = .hold ∧
      (analyze 30 70 none ⟨true, false, true, true,
        [⟨some 1, some 1, some 1, some 1⟩, ⟨some 1, some 1, some 1, some 1⟩,
         ⟨some 1, some 1, some 1, some 1⟩]⟩ none).1.confidence = 0) :=
  ⟨(analyze_soft_failure_iff 30 70 none ⟨true, true, true, true, []⟩ none).mpr
      (Or.inl (by simp)),
   (analyze_soft_failure_iff 30 70 none ⟨true, false, true, true,
        [⟨some 1, some 1, some 1, some 1⟩, ⟨some 1, some 1, some 1, some 1⟩,
         ⟨some 1, some 1, some 1, some 1⟩]⟩ none).mpr
      (Or.inr (Or.inl (by simp [missingIndicatorColumns])))⟩

/-- C10: constructing `RsiEmaStrategy` with a zero threshold argument is
indistinguishable from omitting it — the falsy `0` is replaced by the
config default, so an explicitly requested zero threshold is never
honored. -/
theorem zero_threshold_replaced_by_default :
    RsiEmaStrategy.init (some 0) (some 0) = RsiEmaStrategy.init none none ∧
    RsiEmaStrategy.init (some 0) (some 0) =
      RsiEmaStrategy.init (some RSI_OVERSOLD) (some RSI_OVERBOUGHT) ∧
    (RsiEmaStrategy.init (some 0) (some 0)).rsi_oversold = RSI_OVERSOLD ∧
    (RsiEmaStrategy.init (some 0) (some 0)).rsi_overbought = RSI_OVERBOUGHT ∧
    (RsiEmaStrategy.init (some 0) (some 0)).rsi_oversold ≠ 0 := by
  refine ⟨?_, ?_, ?_, ?_, ?_⟩ <;>
    norm_num [RsiEmaStrategy.init, orDefault, RSI_OVERSOLD, RSI_OVERBOUGHT]

end CryptoBot
